import Mathlib

/-!
Verification of the Strex Excel editor core logic.

The embedding models the data model and operations of the repository:
the dataset loader/normalizer (`useExcelData.ts` `loadExcelFile`, and the
`App.tsx` `handleFileLoad` row processing), the modification ledger and the
cell-edit operations (`App.tsx` `handleCellUpdate`, `useExcelData.ts`
`updateCell`), the view projector (`App.tsx` `displayData` memo and the
`ExcelGrid.tsx` `tableData` overlay), the reconciler/exporter
(`useExcelData.ts` `saveExcelFile`), and the cache store (`useCache.ts`).

Cell values are modeled as strings: both loaders decode the worksheet with
`raw:false` and a default of the empty string, so every cell value reaching
the core logic is a string, with the empty string standing for an empty cell.
JavaScript string primitives (`toLowerCase`, `trim`, `includes`, template
keys) are given executable character-level models below; they agree with the
JavaScript behaviour on the ASCII data the application handles.
-/

namespace Strex

/-- A raw cell value as held in the dataset (string, `""` = empty cell). -/
abbrev Cell := String

/-- A row of the dataset. -/
abbrev Row := List Cell

/-- Dataset structure (`ExcelData` in `types.ts`): headers, rows, filename.
The optional `formatting` blob is presentation-only and not modeled. -/
structure ExcelDataT where
  headers : List String
  data : List Row
  filename : String
deriving Repr, DecidableEq

/-- The modification ledger: the JS object `{[key: string]: string}` mapping a
cell-identity key to the edited value, modeled as an association list in
insertion order (JS objects preserve insertion order for string keys). -/
abbrev Ledger := List (String × String)

/-- JS object/`Map` lookup: the value stored under `k`, if any. -/
def jsGet {β : Type} (m : List (String × β)) (k : String) : Option β :=
  (m.find? (fun kv => kv.1 == k)).map (fun kv => kv.2)

/-- JS object/`Map` update (`{...prev, [k]: v}` and `Map.set`): an existing
key keeps its position and gets the new value, a fresh key is appended. -/
def jsSet {β : Type} : List (String × β) → String → β → List (String × β)
  | [], k, v => [(k, v)]
  | (k', v') :: t, k, v =>
      if k' == k then (k, v) :: t else (k', v') :: jsSet t k v

/-- ASCII lower-casing of one character (model of JS `toLowerCase`). -/
def lcChar (c : Char) : Char :=
  if 'A' ≤ c ∧ c ≤ 'Z' then Char.ofNat (c.toNat + 32) else c

/-- Model of JS `String.prototype.toLowerCase` (ASCII range). -/
def jsToLower (s : String) : String := ⟨s.data.map lcChar⟩

/-- Whitespace recognized by JS `String.prototype.trim` (ASCII part). -/
def isWsChar (c : Char) : Bool :=
  c == ' ' || c == '\t' || c == '\n' || c == '\r' || c == '\x0b' || c == '\x0c'

/-- Model of JS `String.prototype.trim`: strip whitespace from both ends. -/
def jsTrim (s : String) : String :=
  ⟨(((s.data.dropWhile isWsChar).reverse.dropWhile isWsChar).reverse)⟩

/-- Is `n` a prefix of `h`? (helper for the substring search). -/
def prefixAt : List Char → List Char → Bool
  | [], _ => true
  | _ :: _, [] => false
  | a :: as, b :: bs => a == b && prefixAt as bs

/-- Does `n` occur as a contiguous run inside `h`? -/
def occursList (n : List Char) : List Char → Bool
  | [] => prefixAt n []
  | c :: t => prefixAt n (c :: t) || occursList n t

/-- Model of JS `String.prototype.includes`: `n` occurs inside `h`. -/
def jsIncludes (h n : String) : Bool := occursList n.data h.data

/-- JS `row[0]` under a template literal: `undefined` prints as `"undefined"`
when the row is empty (`${row[0]}` inside a key template). -/
def jsIdx0 (row : Row) : String :=
  match row.head? with
  | some s => s
  | none => "undefined"

/-- JS `String(row[i] || '')`: the cell at `i`, or `""` when the cell is
missing or empty (all falsy string values collapse to `""`). -/
def jsStrAt (row : Row) (i : Nat) : String := row.getD i ""

/-- Indexed map, modeling `Array.prototype.map((x, i) => f i x)`. -/
def jsMapIdxGo {α β : Type} (f : Nat → α → β) : Nat → List α → List β
  | _, [] => []
  | i, a :: t => f i a :: jsMapIdxGo f (i + 1) t

/-- `Array.prototype.map` with the element index. -/
def jsMapIdx {α β : Type} (f : Nat → α → β) (l : List α) : List β :=
  jsMapIdxGo f 0 l

/-- Indexed filter, modeling `Array.prototype.filter((x, i) => p i x)`. -/
def jsFilterIdxGo {α : Type} (p : Nat → α → Bool) : Nat → List α → List α
  | _, [] => []
  | i, a :: t =>
      if p i a then a :: jsFilterIdxGo p (i + 1) t else jsFilterIdxGo p (i + 1) t

/-- `Array.prototype.filter` with the element index. -/
def jsFilterIdx {α : Type} (p : Nat → α → Bool) (l : List α) : List α :=
  jsFilterIdxGo p 0 l

/-! ## Dataset loader/normalizer (`useExcelData.ts`, `loadExcelFile`) -/

/-- Result record of a public file operation (`FileOperationResult`). -/
structure FileOpResult where
  success : Bool
  message : String
deriving Repr, DecidableEq

/-- The state owned by the `useExcelData` hook. -/
structure HookState where
  excelData : Option ExcelDataT
  filteredData : Option (List Row)
  modifiedCells : Ledger
  error : Option String
deriving Repr, DecidableEq

/-- `W = Math.max(headers.length, ...data.map(row => row.length))`. -/
def loadMaxCols (headers : List String) (data : List Row) : Nat :=
  data.foldl (fun m r => max m r.length) headers.length

/-- The body of `while (normalizedRow.length < maxCols) normalizedRow.push('')`
run `k` times; the loop runs exactly `maxCols - row.length` times. -/
def padRowGo : Nat → Row → Row
  | 0, r => r
  | k + 1, r => padRowGo k (r ++ [""])

/-- Pad a data row to `maxCols` with empty strings. -/
def padRow (maxCols : Nat) (r : Row) : Row := padRowGo (maxCols - r.length) r

/-- The body of `while (headers.length < maxCols) headers.push(`Column
${headers.length + 1}`)` run `k` times. -/
def padHeadersGo : Nat → List String → List String
  | 0, h => h
  | k + 1, h => padHeadersGo k (h ++ ["Column " ++ toString (h.length + 1)])

/-- Pad the header row to `maxCols`, synthesizing missing labels. -/
def padHeaders (maxCols : Nat) (h : List String) : List String :=
  padHeadersGo (maxCols - h.length) h

/-- The message of the empty-file error thrown by `loadExcelFile`. -/
def emptyDocMsg : String := "The Excel file appears to be empty"

/-- `loadExcelFile` of `useExcelData.ts` after the file has been decoded to
`jsonData` (a 2D string array): on zero rows it throws, the `catch` block
records the error and a `{success:false}` result is returned with the state
otherwise untouched; on at least one row it normalizes and commits the new
dataset, resets the ledger, and reports success. -/
def loadExcelFile (st : HookState) (jsonData : List Row) (filename : String) :
    HookState × FileOpResult :=
  match jsonData with
  | [] => ({ st with error := some emptyDocMsg }, ⟨false, emptyDocMsg⟩)
  | headers :: data =>
      let maxCols := loadMaxCols headers data
      let normalizedData := data.map (padRow maxCols)
      let headers' := padHeaders maxCols headers
      let msg := "Loaded " ++ toString normalizedData.length ++ " rows, " ++
        toString headers'.length ++ " columns"
      ({ st with
          excelData := some ⟨headers', normalizedData, filename⟩
          filteredData := some normalizedData
          modifiedCells := []
          error := none },
       ⟨true, msg⟩)

/-- JS sparse array write `arr[i] = v`: in-bounds writes replace, writes past
the end extend the array (holes read back as empty here). -/
def jsArrWrite (l : List String) (i : Nat) (v : String) : List String :=
  if i < l.length then l.set i v
  else l ++ List.replicate (i - l.length) "" ++ [v]

/-- `updateCell` of `useExcelData.ts`: record the edit in the ledger under the
positional key `"row,col"` and patch the row of `filteredData` if it exists;
the dataset `excelData` is not touched. -/
def updateCell (st : HookState) (row col : Nat) (v : String) : HookState :=
  { st with
      modifiedCells :=
        jsSet st.modifiedCells (toString row ++ "," ++ toString col) v
      filteredData := st.filteredData.map (fun fd =>
        match fd.get? row with
        | some r => fd.set row (jsArrWrite r col v)
        | none => fd) }

/-! ## Reconciler/exporter (`useExcelData.ts`, `saveExcelFile`) -/

/-- A typed cell of the exported workbook, after type inference. Numbers are
modeled as exact rationals; the JS `Number` values arising from the accepted
pattern are decimal literals, which this captures up to floating-point
rounding (immaterial for the integral values in the claims). -/
inductive XCell where
  | str (s : String)
  | bool (b : Bool)
  | num (q : ℚ)
deriving Repr, DecidableEq

/-- Decimal digits to a natural number. -/
def digitsToNat (l : List Char) : Nat :=
  l.foldl (fun a c => a * 10 + (c.toNat - 48)) 0

/-- The numeric pattern `/^-?\d+\.?\d*$/` of `saveExcelFile`. -/
def matchNumPattern (s : String) : Bool :=
  let cs := if s.data.head? == some '-' then s.data.tail else s.data
  let ip := cs.takeWhile Char.isDigit
  let rest := cs.dropWhile Char.isDigit
  !ip.isEmpty &&
    (match rest with
     | [] => true
     | '.' :: fp => fp.all Char.isDigit
     | _ => false)

/-- `Number(s)` for a string matching the numeric pattern: the signed decimal
value (such strings never parse to `NaN`, so the `isNaN` guard never fires). -/
def strToNum (s : String) : ℚ :=
  let neg := s.data.head? == some '-'
  let cs := if neg then s.data.tail else s.data
  let ip := cs.takeWhile Char.isDigit
  let rest := cs.dropWhile Char.isDigit
  let fp := match rest with
    | '.' :: t => t
    | _ => []
  let q : ℚ := (digitsToNat (ip ++ fp) : ℚ) / (10 : ℚ) ^ fp.length
  if neg then -q else q

/-- The per-cell type inference of `saveExcelFile`: empty stays the empty
string; a trimmed string matching the numeric pattern becomes a number; a
trimmed string case-insensitively equal to `true`/`false` becomes a boolean;
anything else becomes its trimmed string. -/
def inferType (cell : String) : XCell :=
  if cell == "" then .str ""
  else
    let cellStr := jsTrim cell
    if matchNumPattern cellStr then .num (strToNum cellStr)
    else if jsToLower cellStr == "true" then .bool true
    else if jsToLower cellStr == "false" then .bool false
    else .str cellStr

/-- The merge step of `saveExcelFile`: for every `(rowIndex, colIndex)` take
the ledger value under the positional key `"rowIndex,colIndex"` when present,
else the dataset's raw cell. -/
def reconcileData (data : List Row) (mods : Ledger) : List Row :=
  jsMapIdx (fun rowIndex row =>
    jsMapIdx (fun colIndex cell =>
      match jsGet mods (toString rowIndex ++ "," ++ toString colIndex) with
      | some v => v
      | none => cell) row) data

/-- The typed data block of the workbook written by `saveExcelFile`
(`typedData`; the emitted sheet is `[headers, ...typedData]`). -/
def saveExcelTable (d : ExcelDataT) (mods : Ledger) : List (List XCell) :=
  (reconcileData d.data mods).map (List.map inferType)

/-! ## Application state and view projector (`App.tsx`) -/

/-- The core state of `AppContent` in `App.tsx` that the claims touch:
the loaded dataset, the modification ledger, the search text, the current
page index and the rows-per-page setting. -/
structure AppState where
  excelData : Option ExcelDataT
  modifiedCells : Ledger
  searchText : String
  currentPage : Nat
  rowsPerPage : Nat
deriving Repr, DecidableEq

/-- `handleCellUpdate` of `App.tsx`: guard `!rowData || rowData.length === 0`,
then record the edit in the ledger under the record key
`` `${rowData[0]}|${col}` `` (first-column value as record id). -/
def handleCellUpdate (st : AppState) (rowData : Row) (col : Nat) (v : String) :
    AppState :=
  if rowData.isEmpty then st
  else
    { st with
        modifiedCells :=
          jsSet st.modifiedCells (jsIdx0 rowData ++ "|" ++ toString col) v }

/-- `excelData.data.findIndex(row => row[0] === recordId)` of
`createWorkbookWithChanges`: the row index whose first cell equals the record
id (strict equality, so a missing `row[0]` never matches). -/
def findRecordRow (data : List Row) (recordId : String) : Option Nat :=
  ((jsMapIdx (fun i row => (i, row)) data).find?
    (fun p => p.2.head? == some recordId)).map (fun p => p.1)

/-- The row filter of the `displayData` memo: keep a row iff its index is 0 or
the lower-cased search text occurs in column 0 or column 1 (lower-cased). -/
def rowKeep (searchText : String) (i : Nat) (row : Row) : Bool :=
  i == 0 ||
    (jsIncludes (jsToLower (jsStrAt row 0)) (jsToLower searchText) ||
     jsIncludes (jsToLower (jsStrAt row 1)) (jsToLower searchText))

/-- The filtering step of `displayData`: applied only for non-empty search
text (`if (searchText)`), otherwise the data passes through. -/
def searchFilter (data : List Row) (searchText : String) : List Row :=
  if searchText ≠ "" then jsFilterIdx (rowKeep searchText) data else data

/-- The `displayData` memo of `App.tsx`: filter by the search text, then slice
the page window `[page*rowsPerPage, (page+1)*rowsPerPage)`; also returns
`totalPages = Math.ceil(filtered.length / rowsPerPage)` (stated for a positive
page size, as configured: 10/20/30/50/100). -/
def displayDataCompute (data : List Row) (searchText : String)
    (currentPage rowsPerPage : Nat) : List Row × Nat :=
  let filteredData := searchFilter data searchText
  let paginated := (filteredData.drop (currentPage * rowsPerPage)).take rowsPerPage
  (paginated, (filteredData.length + rowsPerPage - 1) / rowsPerPage)

/-- The projector run over the application state: it reads
`excelData, searchText, currentPage, rowsPerPage` (the dependency list of the
memo) and owns no write path, so the state comes back unchanged. -/
def projectorRun (st : AppState) : (List Row × Nat) × AppState :=
  (displayDataCompute
      (match st.excelData with
       | some d => d.data
       | none => [])
      st.searchText st.currentPage st.rowsPerPage,
   st)

/-! ## Grid display overlay (`ExcelGrid.tsx`, `tableData`) -/

/-- One display cell of the grid: look the positional key
`` `${globalRowIndex},${colIndex}` `` up in the ledger and substitute the
ledger value when present, else show the raw cell; the boolean is the
`isModified` flag. -/
def gridCell (mods : Ledger) (globalRowIndex colIndex : Nat) (cell : Cell) :
    Cell × Bool :=
  match jsGet mods (toString globalRowIndex ++ "," ++ toString colIndex) with
  | some v => (v, true)
  | none => (cell, false)

/-- The `tableData` memo of `ExcelGrid.tsx` over the page window `data`,
where `startRow = currentPage * rowsPerPage`. -/
def gridTableData (data : List Row) (mods : Ledger) (startRow : Nat) :
    List (List (Cell × Bool)) :=
  jsMapIdx (fun rowIndex row =>
    jsMapIdx (fun colIndex cell =>
      gridCell mods (startRow + rowIndex) colIndex cell) row) data

/-! ## `App.tsx` loader row processing (`handleFileLoad`) -/

/-- The data processing of `handleFileLoad`: skip the header row, force every
data row to exactly `maxCols` cells (missing/null cells become `""`), then
drop every row whose cells are all empty. -/
def processLoadRows (jsonData : List Row) (maxCols : Nat) : List Row :=
  ((jsonData.drop 1).map (fun row =>
      (List.range maxCols).map (fun i => row.getD i ""))).filter
    (fun row => row.any (fun cell => cell != ""))

/-! ## Cache store (`useCache.ts`) -/

/-- A cache entry: opaque payload, write timestamp, access count. -/
structure CacheEntry where
  data : Nat
  timestamp : Nat
  accessCount : Nat
deriving Repr, DecidableEq

/-- One cache namespace (`Map<string, CacheEntry>`), in insertion order. -/
abbrev CMap := List (String × CacheEntry)

/-- `CACHE_EXPIRY_MS = 30 * 60 * 1000`. -/
def cacheExpiryMs : Nat := 30 * 60 * 1000

/-- `MAX_CACHE_SIZE = 50`. -/
def maxCacheSize : Nat := 50

/-- `cleanExpiredEntries`: drop every entry whose age exceeds the TTL
(`now - entry.timestamp > CACHE_EXPIRY_MS`). -/
def cleanExpiredEntries (now : Nat) (m : CMap) : CMap :=
  m.filter (fun kv => !(decide (now - kv.2.timestamp > cacheExpiryMs)))

/-- The sort order of `limitCacheSize`: ascending access count, ties in
ascending timestamp (the JS comparator `a.accessCount - b.accessCount`, then
`a.timestamp - b.timestamp`). -/
def entryLeB (a b : String × CacheEntry) : Bool :=
  a.2.accessCount < b.2.accessCount ||
    (a.2.accessCount == b.2.accessCount && a.2.timestamp ≤ b.2.timestamp)

/-- `limitCacheSize`: when the map holds more than `MAX_CACHE_SIZE` entries,
sort a copy by the eviction order and delete the first
`size - MAX_CACHE_SIZE` keys from the map. -/
def limitCacheSize (m : CMap) : CMap :=
  if m.length ≤ maxCacheSize then m
  else
    let sorted := m.mergeSort entryLeB
    let toRemove := (sorted.take (m.length - maxCacheSize)).map Prod.fst
    m.filter (fun kv => !(toRemove.contains kv.1))

/-- `setCacheEntry`: store the value with the current timestamp and
`accessCount = 1`, then purge expired entries, then enforce the size bound. -/
def setCacheEntry (now : Nat) (m : CMap) (key : String) (d : Nat) : CMap :=
  limitCacheSize (cleanExpiredEntries now
    (jsSet m key ⟨d, now, 1⟩))

/-- The export pipeline viewed from the application state: `saveExcelFile`
closes over `excelData` and `modifiedCells` only (its dependency list), so the
table it writes is this function of the state. -/
def exportOfState (st : AppState) : Option (List (List XCell)) :=
  st.excelData.map (fun d => saveExcelTable d st.modifiedCells)

/-- A concrete full namespace (50 distinct keys, all fresh at time 100) used
to instantiate the cache theorems. -/
def cacheWitnessMap : CMap :=
  (List.range 50).map (fun i =>
    ("k" ++ String.mk [Char.ofNat (65 + i)], (⟨0, i, 1⟩ : CacheEntry)))

/-! ## Helper lemmas -/

/-- Lookup in the empty ledger finds nothing. -/
theorem jsGet_nil {β : Type} (k : String) : jsGet ([] : List (String × β)) k = none := rfl

/-- An indexed map by a pointwise-identity function is the identity. -/
theorem jsMapIdxGo_congr_id {α : Type} (f : Nat → α → α)
    (hf : ∀ i a, f i a = a) : ∀ (i : Nat) (l : List α), jsMapIdxGo f i l = l := by
  intro i l
  induction l generalizing i with
  | nil => rfl
  | cons a t ih => simp [jsMapIdxGo, hf, ih]

/-- The indexed filter always yields a sublist of its input. -/
theorem jsFilterIdxGo_sublist {α : Type} (p : Nat → α → Bool) :
    ∀ (l : List α) (i : Nat), (jsFilterIdxGo p i l).Sublist l := by
  intro l
  induction l with
  | nil => intro i; simp [jsFilterIdxGo]
  | cons a t ih =>
      intro i
      simp only [jsFilterIdxGo]
      by_cases h : p i a = true
      · rw [if_pos h]; exact (ih (i + 1)).cons₂ a
      · rw [if_neg h]; exact (ih (i + 1)).trans (List.sublist_cons_self a t)

/-- The indexed filter agrees with filtering the enumerated list. -/
theorem jsFilterIdxGo_eq_enumFrom {α : Type} (p : Nat → α → Bool) :
    ∀ (l : List α) (i : Nat),
      jsFilterIdxGo p i l =
        ((List.enumFrom i l).filter (fun q => p q.1 q.2)).map Prod.snd := by
  intro l
  induction l with
  | nil => intro i; rfl
  | cons a t ih =>
      intro i
      simp only [jsFilterIdxGo, List.enumFrom, List.filter]
      by_cases h : p i a = true
      · simp [h, ih]
      · simp [h, ih]

/-- `prefixAt n l` holds exactly when `l` extends `n`. -/
theorem prefixAt_iff (n : List Char) :
    ∀ l : List Char, prefixAt n l = true ↔ ∃ suf, l = n ++ suf := by
  induction n with
  | nil => intro l; simp [prefixAt]
  | cons a as ih =>
      intro l
      cases l with
      | nil =>
          simp [prefixAt]
      | cons b bs =>
          simp only [prefixAt, Bool.and_eq_true, beq_iff_eq, ih, List.cons_append,
            List.cons.injEq]
          constructor
          · rintro ⟨hab, suf, hsuf⟩; exact ⟨suf, hab.symm, hsuf⟩
          · rintro ⟨suf, hab, hsuf⟩; exact ⟨hab.symm, suf, hsuf⟩

/-- `occursList n h` holds exactly when `n` occurs contiguously inside `h`. -/
theorem occursList_iff (n : List Char) :
    ∀ h : List Char, occursList n h = true ↔ ∃ pre suf, h = pre ++ n ++ suf := by
  intro h
  induction h with
  | nil =>
      simp only [occursList, prefixAt_iff]
      constructor
      · rintro ⟨suf, hsuf⟩
        exact ⟨[], suf, by simpa using hsuf⟩
      · rintro ⟨pre, suf, hsuf⟩
        rcases List.append_eq_nil.mp hsuf.symm with ⟨h1, h2⟩
        rcases List.append_eq_nil.mp h1 with ⟨h3, h4⟩
        exact ⟨[], by simp [h4]⟩
  | cons c t ih =>
      simp only [occursList, Bool.or_eq_true, prefixAt_iff, ih]
      constructor
      · rintro (⟨suf, hsuf⟩ | ⟨pre, suf, hsuf⟩)
        · exact ⟨[], suf, by simpa using hsuf⟩
        · exact ⟨c :: pre, suf, by simp [hsuf]⟩
      · rintro ⟨pre, suf, hsuf⟩
        cases pre with
        | nil => exact Or.inl ⟨suf, by simpa using hsuf⟩
        | cons p ps =>
            simp only [List.cons_append, List.cons.injEq] at hsuf
            exact Or.inr ⟨ps, suf, hsuf.2⟩

/-- `jsIncludes h n` holds exactly when the characters of `n` occur
contiguously inside those of `h`. -/
theorem jsIncludes_iff (h n : String) :
    jsIncludes h n = true ↔ ∃ pre suf, h.data = pre ++ n.data ++ suf :=
  occursList_iff n.data h.data

/-- Padding a row `k` times appends `k` empty cells. -/
theorem padRowGo_eq : ∀ (k : Nat) (r : Row), padRowGo k r = r ++ List.replicate k "" := by
  intro k
  induction k with
  | zero => intro r; simp [padRowGo]
  | succ k ih =>
      intro r
      rw [padRowGo, ih, List.replicate_succ]
      simp

/-- Padding the headers `k` times appends the synthesized labels
`Column (len+1), …, Column (len+k)`. -/
theorem padHeadersGo_eq : ∀ (k : Nat) (h : List String),
    padHeadersGo k h =
      h ++ (List.range k).map (fun i => "Column " ++ toString (h.length + i + 1)) := by
  intro k
  induction k with
  | zero => intro h; simp [padHeadersGo]
  | succ k ih =>
      intro h
      have step : padHeadersGo (k + 1) h
          = padHeadersGo k (h ++ ["Column " ++ toString (h.length + 1)]) := rfl
      rw [step, ih, List.range_succ_eq_map, List.map_cons, List.map_map, List.append_assoc,
        List.singleton_append]
      simp only [List.length_append, List.length_singleton, Nat.add_zero, Function.comp]
      congr 1
      congr 1
      apply List.map_congr_left
      intro i _
      congr 2
      omega

/-- The initial accumulator bounds the running maximum from below. -/
theorem foldl_max_init_le (l : List Row) :
    ∀ a : Nat, a ≤ l.foldl (fun m r => max m r.length) a := by
  induction l with
  | nil => intro a; simp
  | cons r t ih =>
      intro a
      exact le_trans (le_max_left a r.length) (ih (max a r.length))

/-- Every member's length bounds the running maximum from below. -/
theorem foldl_max_mem_le (l : List Row) (r : Row) (h : r ∈ l) :
    ∀ a : Nat, r.length ≤ l.foldl (fun m r => max m r.length) a := by
  induction l with
  | nil => cases h
  | cons x t ih =>
      intro a
      rcases List.mem_cons.mp h with rfl | hmem
      · exact le_trans (le_max_right a r.length) (foldl_max_init_le t _)
      · exact ih hmem _

/-! ## Claim theorems -/

/-- C1. The claim says a ledger entry written by the edit operation that
resolves to a live position is shown by the display overlay at that position.
The code refutes this: `handleCellUpdate` writes the record key `"Bob|1"`,
the identity resolves to the live position `(0, 1)`, yet the grid's
`tableData` overlay looks up the positional key `"0,1"`, finds nothing, and
displays the raw dataset value `"40"` instead of the edited `"25"` (with
`isModified = false`). -/
theorem C1_record_edit_not_displayed :
    (handleCellUpdate
        ⟨some ⟨["Name", "Age"], [["Bob", "40"]], "f.xlsx"⟩, [], "", 0, 30⟩
        ["Bob", "40"] 1 "25").modifiedCells = [("Bob|1", "25")] ∧
    findRecordRow [["Bob", "40"]] "Bob" = some 0 ∧
    jsGet [("Bob|1", "25")] "Bob|1" = some "25" ∧
    gridTableData [["Bob", "40"]] [("Bob|1", "25")] 0 =
      [[("Bob", false), ("40", false)]] ∧
    ("40" : String) ≠ "25" := by
  refine ⟨by decide, by decide, by decide, by decide, by decide⟩

/-- C2. For every decoded input with at least one row, the loader computes
`W = max(header count, max data-row length)`, pads every data row to length
`W` with the empty string, pads the header row to length `W` with synthesized
`"Column {i+1}"` labels, and in the resulting dataset every row's length
equals `headers.length`. -/
theorem C2_loader_normalizes (st : HookState) (headers : List String)
    (rest : List Row) (fn : String) :
    ∃ D : ExcelDataT,
      (loadExcelFile st (headers :: rest) fn).1.excelData = some D ∧
      D.headers.length = loadMaxCols headers rest ∧
      D.headers = headers ++
        (List.range (loadMaxCols headers rest - headers.length)).map
          (fun i => "Column " ++ toString (headers.length + i + 1)) ∧
      D.data = rest.map
        (fun r => r ++ List.replicate (loadMaxCols headers rest - r.length) "") ∧
      (∀ row ∈ D.data, row.length = D.headers.length) ∧
      D.data.length = rest.length := by
  have hW : headers.length ≤ loadMaxCols headers rest := foldl_max_init_le rest _
  refine ⟨_, rfl, ?_, ?_, ?_, ?_, ?_⟩
  · show (padHeaders (loadMaxCols headers rest) headers).length = _
    rw [padHeaders, padHeadersGo_eq]
    simp only [List.length_append, List.length_map, List.length_range]
    omega
  · show padHeaders (loadMaxCols headers rest) headers = _
    rw [padHeaders, padHeadersGo_eq]
  · show rest.map (padRow (loadMaxCols headers rest)) = _
    apply List.map_congr_left
    intro r _
    rw [padRow, padRowGo_eq]
  · intro row hrow
    show row.length = (padHeaders (loadMaxCols headers rest) headers).length
    rcases List.mem_map.mp hrow with ⟨r, hr, rfl⟩
    have hrle : r.length ≤ loadMaxCols headers rest := foldl_max_mem_le rest r hr _
    rw [padRow, padRowGo_eq, padHeaders, padHeadersGo_eq]
    simp only [List.length_append, List.length_replicate, List.length_map,
      List.length_range]
    omega
  · simp [loadExcelFile]

/-- C7. Loading an input that decodes to zero rows fails with the
empty-document error: the returned result is `{success:false, message}` and
no partial state is committed — the previously loaded dataset and ledger are
unchanged (the embedding is total, so no exception escapes). -/
theorem C7_empty_document_no_commit (st : HookState) (fn : String) :
    (loadExcelFile st [] fn).2.success = false ∧
    (loadExcelFile st [] fn).2.message = emptyDocMsg ∧
    (loadExcelFile st [] fn).1.excelData = st.excelData ∧
    (loadExcelFile st [] fn).1.filteredData = st.filteredData ∧
    (loadExcelFile st [] fn).1.modifiedCells = st.modifiedCells :=
  ⟨rfl, rfl, rfl, rfl, rfl⟩

/-- C9. Cell edits never mutate the dataset: both the application-level
`handleCellUpdate` (record-keyed) and the hook-level `updateCell`
(position-keyed) leave `excelData` — and with it its headers, rows and
filename — untouched; the edit is recorded only in the modification ledger
(and, for `updateCell`, mirrored into the derived `filteredData` view). -/
theorem C9_edits_never_mutate_dataset :
    (∀ (st : AppState) (rowData : Row) (col : Nat) (v : String),
      (handleCellUpdate st rowData col v).excelData = st.excelData) ∧
    (∀ (st : HookState) (row col : Nat) (v : String),
      (updateCell st row col v).excelData = st.excelData) := by
  constructor
  · intro st rowData col v
    rw [handleCellUpdate]
    split <;> rfl
  · intro st row col v
    rfl

/-- C10. The `App.tsx` loader silently discards every processed data row
whose cells are all empty: a row is in the loaded data exactly when it is a
processed row with at least one non-empty cell; hence the loaded row count
can be smaller than the file's data-row count, and positional indices shift
past each dropped row (in the instance, the file has 2 data rows, the loaded
data has 1, and the surviving row `["x"]` moves from data index 1 to 0). -/
theorem C10_loader_drops_empty_rows :
    (∀ (jsonData : List Row) (maxCols : Nat) (r : Row),
      r ∈ processLoadRows jsonData maxCols ↔
        (r ∈ (jsonData.drop 1).map
            (fun row => (List.range maxCols).map (fun i => row.getD i "")) ∧
         ∃ c ∈ r, c ≠ "")) ∧
    (∀ (jsonData : List Row) (maxCols : Nat),
      (processLoadRows jsonData maxCols).length ≤ (jsonData.drop 1).length) ∧
    processLoadRows [["H"], ["", ""], ["x", "y"]] 1 = [["x"]] ∧
    (([["H"], ["", ""], ["x", "y"]] : List Row).drop 1).length = 2 := by
  refine ⟨?_, ?_, by decide, by decide⟩
  · intro jsonData maxCols r
    rw [processLoadRows, List.mem_filter]
    simp [List.any_eq_true]
  · intro jsonData maxCols
    exact le_trans (List.length_filter_le _ _) (by simp)

/-- C3. The export applies per-cell type inference to each effective value:
empty becomes the (kept) empty string, a string matching the numeric pattern
becomes a number, a string case-insensitively equal to `true`/`false` becomes
a boolean, anything else becomes its trimmed string; and in the scenario, the
ledger entry `"25"` stored at the position that the record identity
`("Bob", column 1)` resolves to exports as the numeric value `25`. -/
theorem C3_export_type_inference :
    (∀ cell : String, cell = "" → inferType cell = .str "") ∧
    (∀ cell : String, cell ≠ "" → matchNumPattern (jsTrim cell) = true →
      inferType cell = .num (strToNum (jsTrim cell))) ∧
    (∀ cell : String, cell ≠ "" → matchNumPattern (jsTrim cell) = false →
      jsToLower (jsTrim cell) = "true" → inferType cell = .bool true) ∧
    (∀ cell : String, cell ≠ "" → matchNumPattern (jsTrim cell) = false →
      jsToLower (jsTrim cell) = "false" → inferType cell = .bool false) ∧
    (∀ cell : String, cell ≠ "" → matchNumPattern (jsTrim cell) = false →
      jsToLower (jsTrim cell) ≠ "true" → jsToLower (jsTrim cell) ≠ "false" →
      inferType cell = .str (jsTrim cell)) ∧
    findRecordRow [["Alice", "30"], ["Bob", "40"]] "Bob" = some 1 ∧
    saveExcelTable ⟨["Name", "Age"], [["Alice", "30"], ["Bob", "40"]], "f.xlsx"⟩
        [("1,1", "25")] =
      [[.str "Alice", .num 30], [.str "Bob", .num 25]] := by
  refine ⟨?_, ?_, ?_, ?_, ?_, by decide, ?_⟩
  · intro c h1; simp [inferType, h1]
  · intro c h1 h2; simp [inferType, h1, h2]
  · intro c h1 h2 h3; simp [inferType, h1, h2, h3]
  · intro c h1 h2 h3; simp [inferType, h1, h2, h3]
  · intro c h1 h2 h3 h4; simp [inferType, h1, h2, h3, h4]
  · have h30 : strToNum "30" = 30 := by
      have h : strToNum "30" = ((30 : Nat) : ℚ) / (10 : ℚ) ^ (0 : Nat) := rfl
      rw [h]; norm_num
    have h25 : strToNum "25" = 25 := by
      have h : strToNum "25" = ((25 : Nat) : ℚ) / (10 : ℚ) ^ (0 : Nat) := rfl
      rw [h]; norm_num
    have hmain : saveExcelTable
        ⟨["Name", "Age"], [["Alice", "30"], ["Bob", "40"]], "f.xlsx"⟩ [("1,1", "25")] =
        [[.str "Alice", .num (strToNum "30")], [.str "Bob", .num (strToNum "25")]] := rfl
    rw [hmain, h30, h25]

/-- Witness for C3: the numeric and fall-through inference laws instantiated
at `"25"` and `"hi"`, with their hypotheses discharged concretely. -/
theorem C3_export_type_inference_witness :
    (("25" : String) ≠ "" ∧ matchNumPattern (jsTrim "25") = true) ∧
    inferType "25" = .num (strToNum (jsTrim "25")) ∧
    (("hi" : String) ≠ "" ∧ matchNumPattern (jsTrim "hi") = false ∧
      jsToLower (jsTrim "hi") ≠ "true" ∧ jsToLower (jsTrim "hi") ≠ "false") ∧
    inferType "hi" = .str (jsTrim "hi") :=
  ⟨⟨by decide, by decide⟩,
   C3_export_type_inference.2.1 "25" (by decide) (by decide),
   ⟨by decide, by decide, by decide, by decide⟩,
   C3_export_type_inference.2.2.2.2.1 "hi" (by decide) (by decide) (by decide) (by decide)⟩

/-- C4. The reconciler's output for an empty ledger is exactly the original
dataset values passed through per-cell type inference, in the original row
and column order; and the export is a function of the dataset and ledger
alone, so it is unaffected by the current search text or page selection. -/
theorem C4_empty_ledger_roundtrip :
    (∀ d : ExcelDataT, saveExcelTable d [] = d.data.map (List.map inferType)) ∧
    (∀ st st' : AppState, st.excelData = st'.excelData →
      st.modifiedCells = st'.modifiedCells → exportOfState st = exportOfState st') := by
  constructor
  · intro d
    have hrec : reconcileData d.data [] = d.data := by
      rw [reconcileData, jsMapIdx]
      apply jsMapIdxGo_congr_id
      intro i row
      rw [jsMapIdx]
      exact jsMapIdxGo_congr_id _ (fun j cell => rfl) 0 row
    rw [saveExcelTable, hrec]
  · intro st st' h1 h2
    rw [exportOfState, exportOfState, h1, h2]

/-- Witness for C4: two states sharing dataset and ledger but with different
search text and page selection export the same table. -/
theorem C4_empty_ledger_roundtrip_witness :
    ((⟨some ⟨["H"], [["1"]], "f"⟩, [], "abc", 7, 10⟩ : AppState).excelData =
      (⟨some ⟨["H"], [["1"]], "f"⟩, [], "", 0, 100⟩ : AppState).excelData) ∧
    ((⟨some ⟨["H"], [["1"]], "f"⟩, [], "abc", 7, 10⟩ : AppState).modifiedCells =
      (⟨some ⟨["H"], [["1"]], "f"⟩, [], "", 0, 100⟩ : AppState).modifiedCells) ∧
    exportOfState ⟨some ⟨["H"], [["1"]], "f"⟩, [], "abc", 7, 10⟩ =
      exportOfState ⟨some ⟨["H"], [["1"]], "f"⟩, [], "", 0, 100⟩ :=
  ⟨rfl, rfl, C4_empty_ledger_roundtrip.2 _ _ rfl rfl⟩

/-- C5. For non-empty search text the filtered view retains exactly the rows
whose index is 0 or in which the search text occurs case-insensitively as a
substring of column 0 or column 1 (no other column is consulted by
`rowKeep`); searching `"ali"` over `[["Alice",…],["Bob",…]]` retains only the
Alice row (which is also the pinned row 0). -/
theorem C5_search_filter :
    (∀ s : String, s ≠ "" → ∀ data : List Row,
      searchFilter data s =
        (data.enum.filter (fun q => rowKeep s q.1 q.2)).map Prod.snd) ∧
    (∀ (s : String) (i : Nat) (row : Row),
      rowKeep s i row = true ↔
        (i = 0 ∨
          (∃ pre suf, (jsToLower (jsStrAt row 0)).data =
            pre ++ (jsToLower s).data ++ suf) ∨
          (∃ pre suf, (jsToLower (jsStrAt row 1)).data =
            pre ++ (jsToLower s).data ++ suf))) ∧
    searchFilter [["Alice", "30"], ["Bob", "40"]] "ali" = [["Alice", "30"]] ∧
    searchFilter [["Zed", "1"], ["Alice", "30"], ["Bob", "40"]] "ali" =
      [["Zed", "1"], ["Alice", "30"]] := by
  refine ⟨?_, ?_, by decide, by decide⟩
  · intro s hs data
    rw [searchFilter, if_pos hs, jsFilterIdx, jsFilterIdxGo_eq_enumFrom]
    rfl
  · intro s i row
    simp only [rowKeep, Bool.or_eq_true, beq_iff_eq, jsIncludes_iff]

/-- Witness for C5: the filter characterization instantiated at the non-empty
search text `"ali"`. -/
theorem C5_search_filter_witness :
    ("ali" : String) ≠ "" ∧
    searchFilter [["Bob", "40"]] "ali" =
      (([["Bob", "40"]] : List Row).enum.filter
        (fun q => rowKeep "ali" q.1 q.2)).map Prod.snd :=
  ⟨by decide, C5_search_filter.1 "ali" (by decide) _⟩

/-- C6. The view projector is a pure read path: running it returns the state
unchanged, two runs over identical inputs (dataset, search text, page, page
size — the ledger is not even consulted) produce identical output, and the
returned page of rows is a sublist of the dataset's rows, hence in original
dataset order, never re-sorted. -/
theorem C6_projector_pure :
    (∀ st : AppState, (projectorRun st).2 = st) ∧
    (∀ st st' : AppState, st.excelData = st'.excelData →
      st.searchText = st'.searchText → st.currentPage = st'.currentPage →
      st.rowsPerPage = st'.rowsPerPage → (projectorRun st).1 = (projectorRun st').1) ∧
    (∀ (data : List Row) (s : String) (p rpp : Nat),
      ((displayDataCompute data s p rpp).1).Sublist data) := by
  refine ⟨fun st => rfl, ?_, ?_⟩
  · intro st st' h1 h2 h3 h4
    simp only [projectorRun, h1, h2, h3, h4]
  · intro data s p rpp
    have hf : (searchFilter data s).Sublist data := by
      rw [searchFilter]
      split
      · exact jsFilterIdxGo_sublist _ data 0
      · exact List.Sublist.refl data
    exact ((List.take_sublist _ _).trans (List.drop_sublist _ _)).trans hf

/-- Witness for C6: two states agreeing on the projector's inputs but with
different ledgers produce the same projector output. -/
theorem C6_projector_pure_witness :
    ((⟨some ⟨["H"], [["1"], ["2"]], "f"⟩, [], "q", 1, 10⟩ : AppState).excelData =
      (⟨some ⟨["H"], [["1"], ["2"]], "f"⟩, [("a", "b")], "q", 1, 10⟩ : AppState).excelData) ∧
    ((⟨some ⟨["H"], [["1"], ["2"]], "f"⟩, [], "q", 1, 10⟩ : AppState).searchText =
      (⟨some ⟨["H"], [["1"], ["2"]], "f"⟩, [("a", "b")], "q", 1, 10⟩ : AppState).searchText) ∧
    (projectorRun ⟨some ⟨["H"], [["1"], ["2"]], "f"⟩, [], "q", 1, 10⟩).1 =
      (projectorRun ⟨some ⟨["H"], [["1"], ["2"]], "f"⟩, [("a", "b")], "q", 1, 10⟩).1 :=
  ⟨rfl, rfl, C6_projector_pure.2.1 _ _ rfl rfl rfl rfl⟩

end Strex
namespace Strex

theorem jsSet_map_fst {β : Type} : ∀ (m : List (String × β)) (k : String) (v : β),
    (jsSet m k v).map Prod.fst =
      if k ∈ m.map Prod.fst then m.map Prod.fst else m.map Prod.fst ++ [k] := by
  intro m k v
  induction m with
  | nil => simp [jsSet]
  | cons kv t ih =>
      obtain ⟨k', v'⟩ := kv
      by_cases h : k' == k
      · have hk : k' = k := by simpa using h
        simp [jsSet, h, hk]
      · have hk : k' ≠ k := by simpa using h
        simp only [jsSet, h, List.map_cons]
        by_cases hmem : k ∈ t.map Prod.fst
        · simp [ih, hmem, hk, Ne.symm hk]
        · simp [ih, hmem, hk, Ne.symm hk]

theorem jsSet_fresh {β : Type} : ∀ (m : List (String × β)) (k : String) (v : β),
    k ∉ m.map Prod.fst → jsSet m k v = m ++ [(k, v)] := by
  intro m k v h
  induction m with
  | nil => rfl
  | cons kv t ih =>
      obtain ⟨k', v'⟩ := kv
      simp only [List.map_cons, List.mem_cons] at h
      push_neg at h
      have hne : ¬ (k' == k) = true := by simpa using (Ne.symm h.1)
      simp only [jsSet, hne, if_neg]
      rw [ih h.2]
      simp

theorem jsSet_keys_nodup {β : Type} (m : List (String × β)) (k : String) (v : β)
    (h : (m.map Prod.fst).Nodup) : ((jsSet m k v).map Prod.fst).Nodup := by
  rw [jsSet_map_fst]
  by_cases hmem : k ∈ m.map Prod.fst
  · simpa [hmem] using h
  · rw [if_neg hmem, List.nodup_append]
    refine ⟨h, List.nodup_singleton k, ?_⟩
    intro a ha hb
    simp only [List.mem_singleton] at hb
    subst hb
    exact hmem ha

theorem cleanExpired_noop (now : Nat) (m : CMap)
    (h : ∀ kv ∈ m, now - kv.2.timestamp ≤ cacheExpiryMs) :
    cleanExpiredEntries now m = m := by
  rw [cleanExpiredEntries, List.filter_eq_self]
  intro kv hkv
  simpa using h kv hkv

theorem cleanExpired_keys_nodup (now : Nat) (m : CMap)
    (h : (m.map Prod.fst).Nodup) :
    ((cleanExpiredEntries now m).map Prod.fst).Nodup :=
  ((List.filter_sublist m).map Prod.fst).nodup h

theorem entryLeB_trans : ∀ a b c : String × CacheEntry,
    entryLeB a b = true → entryLeB b c = true → entryLeB a c = true := by
  intro a b c
  simp only [entryLeB, Bool.or_eq_true, Bool.and_eq_true, beq_iff_eq, decide_eq_true_eq]
  omega

theorem entryLeB_total : ∀ a b : String × CacheEntry,
    (entryLeB a b || entryLeB b a) = true := by
  intro a b
  simp only [entryLeB, Bool.or_eq_true, Bool.and_eq_true, beq_iff_eq, decide_eq_true_eq]
  omega

theorem entryLeB_refl (a : String × CacheEntry) : entryLeB a a = true := by
  simp [entryLeB]

theorem limit_perm_drop (m : CMap) (hnd : (m.map Prod.fst).Nodup)
    (hgt : maxCacheSize < m.length) :
    (limitCacheSize m).Perm
      ((m.mergeSort entryLeB).drop (m.length - maxCacheSize)) := by
  have hperm : (m.mergeSort entryLeB).Perm m := List.mergeSort_perm m entryLeB
  have htr : (m.mergeSort entryLeB).take (m.length - maxCacheSize) ++
      (m.mergeSort entryLeB).drop (m.length - maxCacheSize) = m.mergeSort entryLeB :=
    List.take_append_drop _ _
  have hkeysS : ((m.mergeSort entryLeB).map Prod.fst).Nodup :=
    ((hperm.map Prod.fst).nodup_iff).mpr hnd
  rw [limitCacheSize, if_neg (by omega)]
  set p : String × CacheEntry → Bool := fun kv =>
    !((((m.mergeSort entryLeB).take (m.length - maxCacheSize)).map Prod.fst).contains kv.1)
    with hp
  have h1 : (m.filter p).Perm ((m.mergeSort entryLeB).filter p) := (hperm.symm).filter p
  have h2 : ((m.mergeSort entryLeB).take (m.length - maxCacheSize)).filter p = [] := by
    rw [List.filter_eq_nil_iff]
    intro kv hkv
    have : kv.1 ∈ ((m.mergeSort entryLeB).take (m.length - maxCacheSize)).map Prod.fst :=
      List.mem_map_of_mem _ hkv
    simp only [hp, Bool.not_eq_true', Bool.not_eq_false]
    simpa [List.contains] using this
  have hdisj : (((m.mergeSort entryLeB).take (m.length - maxCacheSize)).map Prod.fst).Disjoint
      (((m.mergeSort entryLeB).drop (m.length - maxCacheSize)).map Prod.fst) := by
    have := hkeysS
    rw [← htr, List.map_append, List.nodup_append] at this
    exact this.2.2
  have h3 : ((m.mergeSort entryLeB).drop (m.length - maxCacheSize)).filter p =
      (m.mergeSort entryLeB).drop (m.length - maxCacheSize) := by
    rw [List.filter_eq_self]
    intro kv hkv
    have hmem : kv.1 ∈ ((m.mergeSort entryLeB).drop (m.length - maxCacheSize)).map Prod.fst :=
      List.mem_map_of_mem _ hkv
    have hnotin : kv.1 ∉
        (((m.mergeSort entryLeB).take (m.length - maxCacheSize)).map Prod.fst) :=
      fun hin => hdisj hin hmem
    simp only [hp, Bool.not_eq_true']
    simpa [List.contains] using hnotin
  have h4 : (m.mergeSort entryLeB).filter p =
      (m.mergeSort entryLeB).drop (m.length - maxCacheSize) := by
    conv_lhs => rw [← htr]
    rw [List.filter_append, h2, h3, List.nil_append]
  rw [h4] at h1
  exact h1

end Strex
namespace Strex

theorem C8_cache_bound_and_eviction :
    (∀ (now : Nat) (m : CMap) (k : String) (d : Nat),
      (m.map Prod.fst).Nodup → (setCacheEntry now m k d).length ≤ maxCacheSize) ∧
    (∀ (now : Nat) (m : CMap) (k : String) (d : Nat),
      (m.map Prod.fst).Nodup → m.length = 50 → k ∉ m.map Prod.fst →
      (∀ kv ∈ m, now - kv.2.timestamp ≤ cacheExpiryMs) →
      ∃ ev ∈ m ++ [(k, (⟨d, now, 1⟩ : CacheEntry))],
        (∀ e ∈ m ++ [(k, (⟨d, now, 1⟩ : CacheEntry))], entryLeB ev e = true) ∧
        setCacheEntry now m k d =
          (m ++ [(k, (⟨d, now, 1⟩ : CacheEntry))]).filter (fun kv => kv.1 != ev.1) ∧
        (setCacheEntry now m k d).length = 50) := by
  constructor
  · intro now m k d hnd
    have h1 : ((jsSet m k ⟨d, now, 1⟩).map Prod.fst).Nodup := jsSet_keys_nodup m k _ hnd
    have h2 : ((cleanExpiredEntries now (jsSet m k ⟨d, now, 1⟩)).map Prod.fst).Nodup :=
      cleanExpired_keys_nodup now _ h1
    show (limitCacheSize (cleanExpiredEntries now (jsSet m k ⟨d, now, 1⟩))).length ≤ maxCacheSize
    set m2 := cleanExpiredEntries now (jsSet m k ⟨d, now, 1⟩)
    by_cases hle : m2.length ≤ maxCacheSize
    · rw [limitCacheSize, if_pos hle]; exact hle
    · have hperm := limit_perm_drop m2 h2 (by omega)
      rw [hperm.length_eq, List.length_drop, (List.mergeSort_perm m2 entryLeB).length_eq]
      omega
  · intro now m k d hnd hlen hk hfresh
    have hm1 : jsSet m k ⟨d, now, 1⟩ = m ++ [(k, ⟨d, now, 1⟩)] := jsSet_fresh m k _ hk
    set m2 := m ++ [(k, (⟨d, now, 1⟩ : CacheEntry))] with hm2def
    have hfresh2 : ∀ kv ∈ m2, now - kv.2.timestamp ≤ cacheExpiryMs := by
      intro kv hkv
      rcases List.mem_append.mp hkv with h | h
      · exact hfresh kv h
      · simp only [List.mem_singleton] at h
        subst h
        simp
    have hclean : cleanExpiredEntries now m2 = m2 := cleanExpired_noop now m2 hfresh2
    have hset : setCacheEntry now m k d = limitCacheSize m2 := by
      rw [setCacheEntry, hm1, hclean]
    have hlen2 : m2.length = 51 := by
      rw [hm2def, List.length_append, hlen]
      rfl
    have hnd2 : (m2.map Prod.fst).Nodup := by
      rw [hm2def, List.map_append, List.nodup_append]
      refine ⟨hnd, by simp, ?_⟩
      intro a ha hb
      simp only [List.map_cons, List.map_nil, List.mem_singleton] at hb
      subst hb
      exact hk ha
    have hperm : (m2.mergeSort entryLeB).Perm m2 := List.mergeSort_perm m2 entryLeB
    have hSlen : (m2.mergeSort entryLeB).length = 51 := by rw [hperm.length_eq, hlen2]
    obtain ⟨ev, rest, hS⟩ : ∃ ev rest, m2.mergeSort entryLeB = ev :: rest := by
      cases hScase : m2.mergeSort entryLeB with
      | nil => rw [hScase] at hSlen; simp at hSlen
      | cons a t => exact ⟨a, t, rfl⟩
    have hpair : List.Pairwise (fun a b => entryLeB a b = true) (m2.mergeSort entryLeB) :=
      List.sorted_mergeSort entryLeB_trans entryLeB_total m2
    have hmin : ∀ e ∈ m2, entryLeB ev e = true := by
      intro e he
      have heS : e ∈ m2.mergeSort entryLeB := (hperm.mem_iff).mpr he
      rw [hS] at heS hpair
      rcases List.mem_cons.mp heS with rfl | hmem
      · exact entryLeB_refl e
      · exact (List.pairwise_cons.mp hpair).1 e hmem
    have hevm : ev ∈ m2 := (hperm.mem_iff).mp (by rw [hS]; exact List.mem_cons_self ev rest)
    have hsub : (51 : Nat) - maxCacheSize = 1 := by decide
    have hlimit : limitCacheSize m2 = m2.filter (fun kv => kv.1 != ev.1) := by
      rw [limitCacheSize, if_neg (by rw [hlen2]; decide)]
      have htk : (m2.mergeSort entryLeB).take (m2.length - maxCacheSize) = [ev] := by
        rw [hlen2, hS, hsub]
        rfl
      simp only [htk]
      apply List.filter_congr
      intro kv hkv
      simp only [List.map_cons, List.map_nil, List.contains_cons, List.contains_nil,
        Bool.or_false, bne]
    have hlen50 : (limitCacheSize m2).length = 50 := by
      have hperm2 := limit_perm_drop m2 hnd2 (by rw [hlen2]; decide)
      rw [hperm2.length_eq, List.length_drop, hSlen, hlen2, hsub]
    exact ⟨ev, hevm, hmin, by rw [hset, hlimit], by rw [hset, hlen50]⟩

theorem C8_cache_bound_and_eviction_witness :
    ((cacheWitnessMap.map Prod.fst).Nodup ∧ cacheWitnessMap.length = 50 ∧
      "new" ∉ cacheWitnessMap.map Prod.fst ∧
      (∀ kv ∈ cacheWitnessMap, 100 - kv.2.timestamp ≤ cacheExpiryMs)) ∧
    (setCacheEntry 100 cacheWitnessMap "new" 7).length ≤ maxCacheSize ∧
    (∃ ev ∈ cacheWitnessMap ++ [("new", (⟨7, 100, 1⟩ : CacheEntry))],
      (∀ e ∈ cacheWitnessMap ++ [("new", (⟨7, 100, 1⟩ : CacheEntry))],
        entryLeB ev e = true) ∧
      setCacheEntry 100 cacheWitnessMap "new" 7 =
        (cacheWitnessMap ++ [("new", (⟨7, 100, 1⟩ : CacheEntry))]).filter
          (fun kv => kv.1 != ev.1) ∧
      (setCacheEntry 100 cacheWitnessMap "new" 7).length = 50) :=
  ⟨⟨by decide, by decide, by decide, by decide⟩,
   C8_cache_bound_and_eviction.1 100 cacheWitnessMap "new" 7 (by decide),
   C8_cache_bound_and_eviction.2 100 cacheWitnessMap "new" 7
     (by decide) (by decide) (by decide) (by decide)⟩

end Strex
